import Mathlib

set_option maxRecDepth 16000

/-!
Verification of the `morse` package of the zylo repository against its
natural-language specification.

The Go source (`src/commons/morse/symbols.go`) is embedded shallowly:
  * Go `float64` is modelled by `ℚ` (exact rational arithmetic; the code
    performs only comparisons, sums, products and divisions on finite values);
  * Go strings are modelled by `List Char` (all table data is ASCII);
  * Go slices are modelled by `List`;
  * the third-party STFT front-end (`github.com/r9y9/gossp`) is external to
    the repository, so spectrogram frames are passed to the embedded
    functions as an explicit argument `spec : List (List ℚ)`;
  * the one-dimensional two-class cluster engine (`means`), the `step`
    extractor and the `Min64`/`Max64`/`Sum64` helpers belong to the
    repository but are not among the provided sources; they are modelled
    from the specification (sections 4.2 and 4.3) and are marked
    `Modelled from the spec:` in their doc comments.

Stateful Go methods (`Monitor.Read`) are embedded as functions returning the
result together with the updated `Monitor` state.
-/

/- ===================== Morse codec ===================== -/

/-- Modelled from the spec: the embedded resource `latin.dat` is not among
the provided sources.  Section 6 describes it as one line per character,
glyph first, then its Morse code; section 3 calls the entries Latin letters,
digits and punctuation, and section 8 fixes `S ↦ ...` and `O ↦ ---`.
The table below is the standard ITU alphabet for A–Z and 0–9 plus common
punctuation, matching that description. -/
def morseTable : List (Char × List Char) :=
  [ ('A', ['.', '-']),
    ('B', ['-', '.', '.', '.']),
    ('C', ['-', '.', '-', '.']),
    ('D', ['-', '.', '.']),
    ('E', ['.']),
    ('F', ['.', '.', '-', '.']),
    ('G', ['-', '-', '.']),
    ('H', ['.', '.', '.', '.']),
    ('I', ['.', '.']),
    ('J', ['.', '-', '-', '-']),
    ('K', ['-', '.', '-']),
    ('L', ['.', '-', '.', '.']),
    ('M', ['-', '-']),
    ('N', ['-', '.']),
    ('O', ['-', '-', '-']),
    ('P', ['.', '-', '-', '.']),
    ('Q', ['-', '-', '.', '-']),
    ('R', ['.', '-', '.']),
    ('S', ['.', '.', '.']),
    ('T', ['-']),
    ('U', ['.', '.', '-']),
    ('V', ['.', '.', '.', '-']),
    ('W', ['.', '-', '-']),
    ('X', ['-', '.', '.', '-']),
    ('Y', ['-', '.', '-', '-']),
    ('Z', ['-', '-', '.', '.']),
    ('0', ['-', '-', '-', '-', '-']),
    ('1', ['.', '-', '-', '-', '-']),
    ('2', ['.', '.', '-', '-', '-']),
    ('3', ['.', '.', '.', '-', '-']),
    ('4', ['.', '.', '.', '.', '-']),
    ('5', ['.', '.', '.', '.', '.']),
    ('6', ['-', '.', '.', '.', '.']),
    ('7', ['-', '-', '.', '.', '.']),
    ('8', ['-', '-', '-', '.', '.']),
    ('9', ['-', '-', '-', '-', '.']),
    ('?', ['.', '.', '-', '-', '.', '.']),
    ('/', ['-', '.', '.', '-', '.']),
    ('.', ['.', '-', '.', '-', '.', '-']),
    (',', ['-', '-', '.', '.', '-', '-']),
    ('=', ['-', '.', '.', '.', '-']) ]

/-- The `forward` map of `symbols.go`: character to Morse code.  A missing
key yields the Go zero value `""`, i.e. `[]`. -/
def forward (c : Char) : List Char :=
  ((morseTable.find? (fun p => p.1 == c)).map Prod.snd).getD []

/-- The `reverse` map of `symbols.go`: Morse code to character, `none` when
the code is absent from the table. -/
def reverse (code : List Char) : Option Char :=
  (morseTable.find? (fun p => p.2 == code)).map Prod.fst

/-- Go `strings.Split(s, " ")` for a single-space separator: splitting the
empty string yields `[""]`, and consecutive separators yield empty tokens. -/
def splitSp : List Char → List (List Char)
  | [] => [[]]
  | ' ' :: rest => [] :: splitSp rest
  | c :: rest =>
    match splitSp rest with
    | t :: ts => (c :: t) :: ts
    | [] => [[c]]

/-- `CodeToText` from `symbols.go`: split the code on single spaces, look
each token up in the reverse map, and emit `?` for unknown tokens. -/
def CodeToText (code : List Char) : List Char :=
  (splitSp code).foldl
    (fun acc s =>
      acc ++ (match reverse s with
              | some c => [c]
              | none => ['?'])) []

/-- `TextToCode` from `symbols.go`: prepend a space plus the forward code of
every character, then drop the leading space when the result is nonempty. -/
def TextToCode (text : List Char) : List Char :=
  let r := text.foldl (fun acc c => acc ++ (' ' :: forward c)) []
  if r = [] then [] else r.drop 1

/- ===================== Codec claims ===================== -/

/-- C8: for every character present in the embedded Morse table, encoding it
with `TextToCode` and decoding the result with `CodeToText` yields the
original character back. -/
theorem codec_roundtrip :
    ∀ p ∈ morseTable, CodeToText (TextToCode [p.1]) = [p.1] := by decide

/-- Witness for `codec_roundtrip` at the table entry for `S`. -/
theorem codec_roundtrip_witness :
    (('S', ['.', '.', '.']) ∈ morseTable) ∧
      CodeToText (TextToCode ['S']) = ['S'] :=
  ⟨by decide, codec_roundtrip ('S', ['.', '.', '.']) (by decide)⟩

/-- C9 counterexample: contrary to the claim, `CodeToText` applied to the
empty string does not return the empty string: Go `strings.Split("", " ")`
yields one empty token, which is not in the table, so `?` is emitted. -/
theorem codec_empty_cex :
    CodeToText [] = ['?'] ∧ CodeToText [] ≠ ([] : List Char) := by decide

/-- C9 amended: `TextToCode` on the empty string returns the empty string,
but `CodeToText` on the empty string returns `"?"`. -/
theorem codec_empty_amended :
    TextToCode [] = ([] : List Char) ∧ CodeToText [] = ['?'] := by decide

/- ===================== Numeric helpers ===================== -/

/-- Modelled from the spec: the repository helper `Max64` (maximum of a
vector, used by `Decoder.binary` and on the two cluster means) is not among
the provided sources. -/
def Max64 (l : List ℚ) : ℚ :=
  match l with
  | [] => 0
  | x :: xs => xs.foldl max x

/-- Modelled from the spec: the repository helper `Min64` (minimum of a
vector), not among the provided sources. -/
def Min64 (l : List ℚ) : ℚ :=
  match l with
  | [] => 0
  | x :: xs => xs.foldl min x

/-- Modelled from the spec: the repository helper `Sum64` (sum of a vector),
used by `Decoder.search`. -/
def Sum64 (l : List ℚ) : ℚ := l.sum

/-- `clip` from `symbols.go` lines 71–79: clamp `x` to `[mn, mx]`, testing
the lower bound first. -/
def clip (x mn mx : Int) : Int :=
  let x1 := if x < mn then mn else x
  if x1 > mx then mx else x1

/- ===================== Cluster engine and steps ===================== -/

/-- An envelope transition (`step` of the repository): `time` is the frame
index, `down` the keying state flag, `span` a duration filled in later by
`Decoder.detect` (Go zero value `0`). -/
structure step where
  time : Nat
  down : Bool
  span : ℚ
deriving DecidableEq

/-- Modelled from the spec (section 4.3): a key-down step contributes a dot
for class 0 and a dash for class 1. -/
def step.tone (_ : step) (c : Nat) : List Char :=
  if c = 0 then ['.'] else ['-']

/-- Modelled from the spec (section 4.3): a key-up step contributes nothing
for an intra-character gap, one space for an inter-character gap, and two
spaces for a word gap. -/
def step.mute (_ : step) (e : Nat) : List Char :=
  if e = 0 then [] else if e = 1 then [' '] else [' ', ' ']

/-- The two-class one-dimensional mixture (`means` of the repository): the
sample vector and the two class means. -/
structure means where
  X : List ℚ
  m0 : ℚ
  m1 : ℚ
deriving DecidableEq

/-- Modelled from the spec (section 4.2): nearest-mean class assignment,
ties broken toward class 0. -/
def means.class (g : means) (x : ℚ) : Nat :=
  if |x - g.m0| ≤ |x - g.m1| then 0 else 1

/-- Modelled from the spec (section 4.2): one iteration of the two-class
estimator: assign every sample to its nearest mean, then recompute each
mean as the average of its class, an empty class keeping its old mean. -/
def means.iterStep (g : means) : means :=
  let c0 := g.X.filter (fun x => g.class x = 0)
  let c1 := g.X.filter (fun x => g.class x = 1)
  { g with
    m0 := if c0 = [] then g.m0 else c0.sum / c0.length,
    m1 := if c1 = [] then g.m1 else c1.sum / c1.length }

/-- Modelled from the spec (section 4.2): initialise the means at the
minimum and maximum of the samples, run `iter` refinement iterations, and
sort the two means ascending. -/
def means.optimize (g : means) (iter : Nat) : means :=
  let g0 : means := { g with m0 := Min64 g.X, m1 := Max64 g.X }
  let gn := means.iterStep^[iter] g0
  if gn.m0 ≤ gn.m1 then gn else { gn with m0 := gn.m1, m1 := gn.m0 }

/-- Modelled from the spec (section 4.2): classify a key-up duration from
the key-down mixture means: at most `m1` is an intra-character gap, at most
`3·m1` an inter-character gap, anything longer a word gap. -/
def means.extra (g : means) (x : ℚ) : Nat :=
  if x ≤ g.m1 then 0 else if x ≤ 3 * g.m1 then 1 else 2

/-- Helper for `means.steps`: emit a step at every index whose class
differs from the previous index's class. -/
def stepsAux (g : means) : Nat → Nat → List ℚ → List step
  | _, _, [] => []
  | i, prevc, x :: rest =>
    if g.class x ≠ prevc then
      ⟨i, if g.class x = 0 then false else true, 0⟩ ::
        stepsAux g (i + 1) (g.class x) rest
    else stepsAux g (i + 1) prevc rest

/-- Modelled from the spec (sections 4.2 and 4.3): the step list of a
mixture over envelope samples: a first step at time 0 carrying the class of
index 0, then one step at every index where the class assignment changes,
flagged with the new state. -/
def means.steps (g : means) : List step :=
  match g.X with
  | [] => []
  | x0 :: rest =>
    ⟨0, if g.class x0 = 0 then false else true, 0⟩ ::
      stepsAux g 1 (g.class x0) rest

/- ===================== Message and Decoder ===================== -/

/-- `Message` from `symbols.go`: envelope, decoded text, carrier bin, life
and miss counters, and the internal neighbor-bin flag. -/
structure Message where
  Data : List ℚ
  Code : List Char
  Freq : Int
  Life : Int
  Miss : Int
  side : Bool
deriving DecidableEq

/-- The STFT configuration of the third-party front-end: frame length and
frame shift are the only fields the `morse` package reads. -/
structure STFT where
  FrameLen : Nat
  FrameShift : Nat
deriving DecidableEq

/-- `Decoder` from `symbols.go`. -/
structure Decoder where
  Iter : Nat
  Bias : Nat
  Band : Nat
  Gain : ℚ
  Mute : ℚ
  Loud : ℚ
  STFT : STFT
deriving DecidableEq

/-- `MIN_RELIABLE_DOT` from `symbols.go` line 69. -/
def MIN_RELIABLE_DOT : ℚ := 2

/-- The rescaled envelope of `Decoder.binary`:
`key[i] = signal[i] * min(Gain, max(signal) / signal[i])`. -/
def Decoder.key (d : Decoder) (signal : List ℚ) : List ℚ :=
  let mx := Max64 signal
  signal.map (fun v => v * min d.Gain (mx / v))

/-- The mixture `Decoder.binary` fits over the rescaled envelope. -/
def Decoder.envGmm (d : Decoder) (signal : List ℚ) : means :=
  (means.mk (d.key signal) 0 0).optimize d.Iter

/-- `Decoder.binary` from `symbols.go` lines 106–120: rescale the envelope,
fit the two-class mixture, and return its steps unless the louder mean
fails the `Mute` ratio test against the quieter one. -/
def Decoder.binary (d : Decoder) (signal : List ℚ) : List step :=
  let gmm := d.envGmm signal
  let tone := max gmm.m0 gmm.m1
  let mute := min gmm.m0 gmm.m1
  if tone > d.Mute * mute then gmm.steps else []

/-- The spanned tail `steps[1:]` of `Decoder.detect`: every step after the
first, its `span` set to the distance to the preceding step. -/
def Decoder.stepsSpanned (d : Decoder) (signal : List ℚ) : List step :=
  let steps := d.binary signal
  (steps.tail.zip steps).map
    (fun p => { p.1 with span := (p.1.time : ℚ) - (p.2.time : ℚ) })

/-- The key-down spans `Decoder.detect` collects into `tones`. -/
def Decoder.tones (d : Decoder) (signal : List ℚ) : List ℚ :=
  ((d.stepsSpanned signal).filter (fun s => s.down)).map (fun s => s.span)

/-- The mixture `Decoder.detect` fits over the collected `tones`. -/
def Decoder.toneGmm (d : Decoder) (signal : List ℚ) : means :=
  (means.mk (d.tones signal) 0 0).optimize d.Iter

/-- The symbol the emission loop of `Decoder.detect` appends for one step:
a dot or dash for a key-down step, a gap separator for a key-up step. -/
def symbolOf (g : means) (s : step) : List Char :=
  if s.down then s.tone (g.class s.span) else s.mute (g.extra s.span)

/-- `Decoder.detect` from `symbols.go` lines 122–149: copy the envelope,
extract spanned steps, cluster the key-down spans, and emit one symbol per
step after the first when the smaller duration mean exceeds
`MIN_RELIABLE_DOT`; otherwise the decoded code stays empty. -/
def Decoder.detect (d : Decoder) (signal : List ℚ) : Message :=
  let tl := d.stepsSpanned signal
  let tones := d.tones signal
  let code : List Char :=
    if 1 ≤ tones.length then
      let gmm := d.toneGmm signal
      if MIN_RELIABLE_DOT < min gmm.m0 gmm.m1 then
        tl.foldl (fun acc s => acc ++ symbolOf gmm s) []
      else []
    else []
  { Data := signal, Code := code, Freq := 0, Life := 0, Miss := 0,
    side := false }

/-- The carrier-search loop of `Decoder.search` from `symbols.go` lines
151–166, transcribed with its state (running maximum `top`, its index
`pos`, the accumulated result) made explicit. -/
def searchLoop (bias : Nat) (lev : ℚ) :
    List ℚ → Nat → ℚ → Nat → List Nat → List Nat
  | [], _, _, _, acc => acc
  | v :: rest, i, top, pos, acc =>
    if v > top then searchLoop bias lev rest (i + 1) v i acc
    else if v < lev ∧ top > lev then
      searchLoop bias lev rest (i + 1) 0 0 (acc ++ [bias + pos])
    else searchLoop bias lev rest (i + 1) top pos acc

/-- `Decoder.search` from `symbols.go`: threshold at `Loud` times the total
power and walk the spectrum with `searchLoop`. -/
def Decoder.search (d : Decoder) (spectrum : List ℚ) : List Nat :=
  let lev := d.Loud * Sum64 spectrum
  searchLoop d.Bias lev spectrum 0 0 0 []

/-- The carrier search as the specification words it (section 4.5): walk
left to right tracking the running maximum `top` and its index `pos`;
whenever the current value is below `lev` while `top` exceeds `lev`, commit
`Bias + pos` and reset `top` and `pos`; a peak still being tracked when the
vector ends is discarded. -/
def searchSpecLoop (bias : Nat) (lev : ℚ) :
    List ℚ → Nat → ℚ → Nat → List Nat
  | [], _, _, _ => []
  | v :: rest, i, top, pos =>
    if v < lev ∧ top > lev then
      (bias + pos) :: searchSpecLoop bias lev rest (i + 1) 0 0
    else if v > top then searchSpecLoop bias lev rest (i + 1) v i
    else searchSpecLoop bias lev rest (i + 1) top pos

/-- The offsets `-Band, …, Band` of the neighborhood loop in
`Decoder.Read`. -/
def offsets (band : Nat) : List Int :=
  (List.range (2 * band + 1)).map (fun k => (k : Int) - band)

/-- The accumulated per-bin power vector of `Decoder.Read`: the spectrogram
rows are summed squared from bin `Bias` up to `FrameLen/2`, into a vector
of length `FrameLen/2` whose final `Bias` entries stay zero. -/
def Decoder.dist (d : Decoder) (spec : List (List ℚ)) : List ℚ :=
  let nbins := d.STFT.FrameLen / 2
  (List.range nbins).map
    (fun i =>
      if d.Bias + i < nbins then
        (spec.map (fun s => let v := s.getD (d.Bias + i) 0; v * v)).sum
      else 0)

/-- The body of the neighborhood loop in `Decoder.Read`: decode the
envelope on the clipped bin `idx + n` and emit the message when its code is
nonempty, flagged as a side detection when `n ≠ 0` and carrying the
unclipped absolute bin `idx + n` as its frequency. -/
def Decoder.emitAt (d : Decoder) (spec : List (List ℚ)) (idx : Nat)
    (n : Int) : List Message :=
  let nbins := d.STFT.FrameLen / 2
  let bin := clip ((idx : Int) + n) 0 ((nbins : Int) - 1)
  let buff := spec.map (fun s => s.getD bin.toNat 0)
  let msg := d.detect buff
  if msg.Code ≠ [] then
    [{ msg with side := if n = 0 then false else true,
                Freq := (idx : Int) + n }]
  else []

/-- `Decoder.Read` from `symbols.go` lines 172–194, with the third-party
STFT abstracted: `spec` is the list of spectrogram frames of the input
signal.  For every carrier the search finds and every offset in
`[-Band, Band]`, the envelope on the clipped bin is decoded; a nonempty
decode is emitted with its absolute bin and the neighbor-bin flag. -/
def Decoder.Read (d : Decoder) (spec : List (List ℚ)) : List Message :=
  (d.search (d.dist spec)).foldl
    (fun acc idx =>
      acc ++ (offsets d.Band).foldl
        (fun acc2 n => acc2 ++ d.emitAt spec idx n) []) []

/- ===================== Monitor ===================== -/

/-- `Monitor` from `symbols.go`. -/
structure Monitor where
  MaxHold : Nat
  MaxMiss : Int
  MaxBand : Nat
  Decoder : Decoder
  samples : List ℚ
  targets : List Message
deriving DecidableEq

/-- One pass of the inner merge loop of `Monitor.next`: when the fresh
message shares its frequency with a prior target, re-decode the prior
envelope extended by the fresh tail past `drop`, keeping the prior
frequency and life.

Caution: the Go source computes `drop` as an int and crashes with an
index-out-of-range error at `next.Data[drop:]` when it is negative, i.e.
when `len(signal)/shift > len(next.Data)`.  This total function clamps the
subtraction to zero there (appending all of `next.Data`); it agrees with
the faithful fallible model `mergeStepChecked` exactly on the regime
`siglen / shift ≤ next.Data.length` where the Go is defined (lemma
`mergeStepChecked_agree`), and theorems about the merge carry that guard. -/
def mergeStep (dec : Decoder) (siglen shift : Nat) (next prev : Message) :
    Message :=
  if next.Freq = prev.Freq then
    let drop := next.Data.length - siglen / shift
    { dec.detect (prev.Data ++ next.Data.drop drop) with
      Freq := prev.Freq, Life := prev.Life }
  else next

/-- The faithful fallible model of one merge pass: `drop` is an integer as
in the Go source, and a negative value — where `next.Data[drop:]` crashes
with an index-out-of-range error — is represented by `none`. -/
def mergeStepChecked (dec : Decoder) (siglen shift : Nat)
    (next prev : Message) : Option Message :=
  if next.Freq = prev.Freq then
    let drop : Int := (next.Data.length : Int) - (siglen / shift : Nat)
    if 0 ≤ drop then
      some { dec.detect (prev.Data ++ next.Data.drop drop.toNat) with
             Freq := prev.Freq, Life := prev.Life }
    else none
  else some next

/-- The inner merge loop of `Monitor.next` in the fallible model: the fold
of `mergeStepChecked` over the prior targets, propagating a crash. -/
def mergeFoldChecked (dec : Decoder) (siglen shift : Nat) :
    List Message → Message → Option Message
  | [], cur => some cur
  | p :: rest, cur =>
    match mergeStepChecked dec siglen shift cur p with
    | some cur1 => mergeFoldChecked dec siglen shift rest cur1
    | none => none

/-- The body of the outer loop of `Monitor.next`: fold the merge pass over
the prior targets, then emit the message with its life incremented unless
it is flagged as a side detection. -/
def Monitor.nextEmit (m : Monitor) (siglen : Nat) (next0 : Message) :
    List Message :=
  let next1 :=
    m.targets.foldl (mergeStep m.Decoder siglen m.Decoder.STFT.FrameShift)
      next0
  if next1.side = false then [{ next1 with Life := next1.Life + 1 }] else []

/-- `Monitor.next` from `symbols.go` lines 228–248: decode the rolling
buffer with a widened decoder (`Band := MaxBand`), merge every fresh
message with the prior targets sharing its frequency, and emit the
non-side results with their life incremented. -/
def Monitor.next (m : Monitor) (spec : List (List ℚ)) (siglen : Nat) :
    List Message :=
  let extra := { m.Decoder with Band := m.MaxBand }
  (extra.Read spec).foldl
    (fun acc next0 => acc ++ m.nextEmit siglen next0) []

/-- The body of the loop of `Monitor.prev`: carry a prior target absent
from the fresh results, with its miss counter incremented, as long as the
counter is still below `MaxMiss`. -/
def Monitor.carryOne (m : Monitor) (latest : List Message) (prev : Message) :
    List Message :=
  if (∀ next ∈ latest, next.Freq ≠ prev.Freq) ∧ prev.Miss < m.MaxMiss then
    [{ prev with Miss := prev.Miss + 1 }]
  else []

/-- The carried-over part of `Monitor.prev`: every prior target absent from
the fresh results whose miss counter is still below `MaxMiss`, with the
counter incremented. -/
def Monitor.carried (m : Monitor) (latest : List Message) : List Message :=
  m.targets.foldl (fun acc prev => acc ++ m.carryOne latest prev) []

/-- `Monitor.prev` from `symbols.go` lines 250–264: append the carried-over
missed targets to the fresh results. -/
def Monitor.prev (m : Monitor) (latest : List Message) : List Message :=
  latest ++ m.carried latest

/-- `Monitor.Read` from `symbols.go` lines 269–278: append the block to the
rolling buffer, trim a frame-aligned amount from the head when the buffer
exceeds `MaxHold`, run the merge and carry phases, and store the result as
the new target set.  Returns the result and the updated monitor. -/
def Monitor.Read (m : Monitor) (spec : List (List ℚ)) (signal : List ℚ) :
    List Message × Monitor :=
  let shift := m.Decoder.STFT.FrameShift
  let samples1 := m.samples ++ signal
  let samples2 :=
    if samples1.length > m.MaxHold then
      samples1.drop (signal.length / shift * shift)
    else samples1
  let m1 : Monitor := { m with samples := samples2 }
  let result := m1.prev (m1.next spec signal.length)
  (result, { m1 with targets := result })

/-- A monitor state reachable from `m₀` by a sequence of `Monitor.Read`
calls, each on some block and its spectrogram. -/
inductive Reaches : Monitor → Monitor → Prop
  | refl (m : Monitor) : Reaches m m
  | step (m₀ m₁ : Monitor) (spec : List (List ℚ)) (signal : List ℚ) :
      Reaches m₀ m₁ → Reaches m₀ ((m₁.Read spec signal).2)

/- ===================== Concrete instances ===================== -/

/-- A small decoder configuration used for concrete evaluations: shaped
like `DefaultMonitor`'s decoder (`Gain 2`, `Mute 5`, a percent-scale
`Loud`) but with a six-bin spectrum so terms stay small. -/
def d0 : Decoder :=
  { Iter := 2, Bias := 0, Band := 0, Gain := 2, Mute := 5, Loud := 1 / 100,
    STFT := ⟨12, 2⟩ }

/-- A keyed envelope: three silent frames, a three-frame tone, a nine-frame
tone and trailing silence, decoding to a nonempty code. -/
def envC : List ℚ := [0, 0, 0, 8, 8, 8, 0, 0, 0]

/-- An envelope whose single key-down cluster has mean exactly
`MIN_RELIABLE_DOT`. -/
def sig6 : List ℚ := [0, 0, 8, 8, 8]

/-- A constant envelope, which the mute ratio test classifies as noise. -/
def sig1 : List ℚ := [1, 1, 1]

/-- A spectrogram with the envelope `envC` on bin 3 and silence elsewhere. -/
def specA : List (List ℚ) := envC.map (fun v => [0, 0, 0, v, 0, 0])

/-- A spectrogram with the envelope `envC` on bin 3 and loud constant
carriers on bins 1 and 4, whose peaks the search commits while their
constant envelopes fail the mute test. -/
def specB : List (List ℚ) := envC.map (fun v => [0, 10, 0, v, 10, 0])

/-- A fresh monitor around `d0` with neighborhood half-width 2. -/
def monA : Monitor :=
  { MaxHold := 100, MaxMiss := 5, MaxBand := 2, Decoder := d0,
    samples := [], targets := [] }

/-- The monitor after reading `specA`: one target on bin 3. -/
def monB : Monitor := (monA.Read specA []).2

/-- The monitor after then reading `specB`: two targets share bin 3. -/
def monC : Monitor := (monB.Read specB []).2

/-- The single target of `monB`. -/
def T3 : Message :=
  { Data := envC, Code := ['.'], Freq := 3, Life := 1, Miss := 0,
    side := false }

/-- A side detection on bin 3 produced by the widened decoder on `specB`. -/
def M3 : Message :=
  { Data := envC, Code := ['.'], Freq := 3, Life := 0, Miss := 0,
    side := true }

/-- A monitor whose hold cap can be exceeded by unaligned blocks: capacity
one sample, frame shift two. -/
def monD : Monitor :=
  { MaxHold := 1, MaxMiss := 5, MaxBand := 0,
    Decoder := { Iter := 1, Bias := 0, Band := 0, Gain := 2, Mute := 5,
                 Loud := 1 / 100, STFT := ⟨4, 2⟩ },
    samples := [], targets := [] }

/-- A target on bin 7 that stays silent, for the miss-counter witness. -/
def T7 : Message :=
  { Data := [], Code := ['.'], Freq := 7, Life := 1, Miss := 0,
    side := false }

/-- A monitor with one silent target, for the miss-counter witness. -/
def monE : Monitor :=
  { MaxHold := 100, MaxMiss := 2, MaxBand := 0,
    Decoder := { Iter := 1, Bias := 0, Band := 0, Gain := 2, Mute := 5,
                 Loud := 1 / 100, STFT := ⟨12, 2⟩ },
    samples := [], targets := [T7] }

/- ===================== General lemmas ===================== -/

theorem foldl_append_eq {α β : Type} (f : α → List β) (l : List α)
    (acc : List β) :
    l.foldl (fun a b => a ++ f b) acc = acc ++ (l.map f).flatten := by
  induction l generalizing acc with
  | nil => simp
  | cons x xs ih => simp [ih, List.append_assoc]

theorem mem_foldl_append {α β : Type} {f : α → List β} {l : List α}
    {x : β} :
    x ∈ l.foldl (fun a b => a ++ f b) [] ↔ ∃ a ∈ l, x ∈ f a := by
  rw [foldl_append_eq]
  simp [List.mem_flatten]

/- ===================== C5: carrier search ===================== -/

theorem search_loop_eq (bias : Nat) (lev : ℚ) :
    ∀ (l : List ℚ) (i : Nat) (top : ℚ) (pos : Nat) (acc : List Nat),
      searchLoop bias lev l i top pos acc =
        acc ++ searchSpecLoop bias lev l i top pos := by
  intro l
  induction l with
  | nil => intro i top pos acc; simp [searchLoop, searchSpecLoop]
  | cons v rest ih =>
    intro i top pos acc
    by_cases h1 : v > top
    · have h2 : ¬(v < lev ∧ top > lev) := by
        rintro ⟨hvl, htl⟩
        exact absurd (hvl.trans htl) (lt_asymm h1)
      simp only [searchLoop, searchSpecLoop, if_pos h1, if_neg h2, ih]
    · by_cases h2 : v < lev ∧ top > lev
      · simp only [searchLoop, searchSpecLoop, if_pos h2, if_neg h1, ih,
          List.append_assoc, List.singleton_append]
      · simp only [searchLoop, searchSpecLoop, if_neg h1, if_neg h2, ih]

/-- C5: `Decoder.search` computes the threshold `lev = Loud · sum(dist)`
and equals the specification's walk, which tracks the running maximum
`top` and its index `pos`, commits `Bias + pos` and resets exactly when
the current value falls below `lev` while `top` exceeds `lev`, and
discards a peak still tracked when the vector ends. -/
theorem decoder_search_spec (d : Decoder) (spectrum : List ℚ) :
    d.search spectrum =
      searchSpecLoop d.Bias (d.Loud * Sum64 spectrum) spectrum 0 0 0 := by
  simpa [Decoder.search] using
    search_loop_eq d.Bias (d.Loud * Sum64 spectrum) spectrum 0 0 0 []

/- ===================== C7: mute rejection ===================== -/

/-- C7: whenever the louder mean of the mixture fitted to the rescaled
envelope is at most `Mute` times the quieter one, `Decoder.detect`
returns a message with empty code whose `Data` is still the full input
envelope. -/
theorem detect_mute_noise (d : Decoder) (signal : List ℚ)
    (h : max (d.envGmm signal).m0 (d.envGmm signal).m1 ≤
      d.Mute * min (d.envGmm signal).m0 (d.envGmm signal).m1) :
    (d.detect signal).Code = [] ∧ (d.detect signal).Data = signal := by
  have hb : d.binary signal = [] := by
    simp only [Decoder.binary]
    rw [if_neg (not_lt.mpr h)]
  have hs : d.stepsSpanned signal = [] := by
    simp [Decoder.stepsSpanned, hb]
  have ht : d.tones signal = [] := by
    simp [Decoder.tones, hs]
  exact ⟨by simp [Decoder.detect, ht], rfl⟩

/-- Witness for `detect_mute_noise` on the constant envelope `sig1`. -/
theorem detect_mute_noise_witness :
    (max (d0.envGmm sig1).m0 (d0.envGmm sig1).m1 ≤
      d0.Mute * min (d0.envGmm sig1).m0 (d0.envGmm sig1).m1) ∧
    ((d0.detect sig1).Code = [] ∧ (d0.detect sig1).Data = sig1) :=
  ⟨by with_unfolding_all decide,
   detect_mute_noise d0 sig1 (by with_unfolding_all decide)⟩

/- ===================== C6: minimum-dot rejection ===================== -/

/-- C6 counterexample: on `sig6` the key-down mixture's smaller mean equals
`MIN_RELIABLE_DOT` exactly, and `Decoder.detect` rejects the decode even
though the claim promises symbols whenever that mean is at least 2: the
source tests `Min64(gmm.m) > MIN_RELIABLE_DOT` strictly. -/
theorem detect_min_dot_boundary_cex :
    d0.tones sig6 = [2] ∧
    min (d0.toneGmm sig6).m0 (d0.toneGmm sig6).m1 = MIN_RELIABLE_DOT ∧
    (d0.detect sig6).Code = [] := by
  with_unfolding_all decide

/-- C6 amended: when the step extraction yields at least one key-down
duration, `Decoder.detect` rejects (leaves the code empty) exactly when
the smaller duration mean is at most `MIN_RELIABLE_DOT`; when it is
strictly greater, one symbol is appended for every step after the first
and the code is nonempty. -/
theorem detect_reject_iff (d : Decoder) (signal : List ℚ)
    (h : d.tones signal ≠ []) :
    ((d.detect signal).Code = [] ↔
      min (d.toneGmm signal).m0 (d.toneGmm signal).m1 ≤ MIN_RELIABLE_DOT) ∧
    (MIN_RELIABLE_DOT < min (d.toneGmm signal).m0 (d.toneGmm signal).m1 →
      (d.detect signal).Code =
        ((d.stepsSpanned signal).map (symbolOf (d.toneGmm signal))).flatten) := by
  have hlen : 1 ≤ (d.tones signal).length := by
    cases hx : d.tones signal with
    | nil => exact absurd hx h
    | cons a l => simp
  have hcode : (d.detect signal).Code =
      if MIN_RELIABLE_DOT < min (d.toneGmm signal).m0 (d.toneGmm signal).m1
      then ((d.stepsSpanned signal).map (symbolOf (d.toneGmm signal))).flatten
      else [] := by
    simp only [Decoder.detect, if_pos hlen]
    split
    · exact foldl_append_eq _ _ []
    · rfl
  have hne : ((d.stepsSpanned signal).map
      (symbolOf (d.toneGmm signal))).flatten ≠ [] := by
    intro hnil
    obtain ⟨s, hs, hdown⟩ :
        ∃ s ∈ d.stepsSpanned signal, s.down = true := by
      by_contra hc
      push_neg at hc
      apply h
      simp only [Decoder.tones]
      rw [List.filter_eq_nil_iff.mpr ?_]
      · rfl
      · intro s hs
        simpa using hc s hs
    have hmem : symbolOf (d.toneGmm signal) s ∈
        (d.stepsSpanned signal).map (symbolOf (d.toneGmm signal)) :=
      List.mem_map_of_mem _ hs
    have : symbolOf (d.toneGmm signal) s = [] :=
      (List.flatten_eq_nil_iff.mp hnil) _ hmem
    rw [symbolOf, hdown, if_pos rfl, step.tone] at this
    by_cases hc : (d.toneGmm signal).class s.span = 0
    · rw [if_pos hc] at this; exact List.cons_ne_nil _ _ this
    · rw [if_neg hc] at this; exact List.cons_ne_nil _ _ this
  constructor
  · rw [hcode]
    constructor
    · intro he
      by_contra hlt
      rw [if_pos (not_le.mp hlt)] at he
      exact hne he
    · intro hle
      rw [if_neg (not_lt.mpr hle)]
  · intro hlt
    rw [hcode, if_pos hlt]

/-- Witness for `detect_reject_iff` on the envelope `envC`, whose tone
mean is 3. -/
theorem detect_reject_iff_witness :
    d0.tones envC ≠ [] ∧
    (((d0.detect envC).Code = [] ↔
       min (d0.toneGmm envC).m0 (d0.toneGmm envC).m1 ≤ MIN_RELIABLE_DOT) ∧
     (MIN_RELIABLE_DOT < min (d0.toneGmm envC).m0 (d0.toneGmm envC).m1 →
       (d0.detect envC).Code =
         ((d0.stepsSpanned envC).map (symbolOf (d0.toneGmm envC))).flatten)) :=
  ⟨by with_unfolding_all decide,
   detect_reject_iff d0 envC (by with_unfolding_all decide)⟩

/- ===================== C1: merge across blocks ===================== -/

theorem mergeFold_no_match (dec : Decoder) (a b : Nat) :
    ∀ (l : List Message) (cur : Message),
      (∀ p ∈ l, cur.Freq ≠ p.Freq) →
      l.foldl (mergeStep dec a b) cur = cur := by
  intro l
  induction l with
  | nil => intro cur _; rfl
  | cons p rest ih =>
    intro cur hne
    have h1 : mergeStep dec a b cur p = cur := by
      rw [mergeStep, if_neg (hne p (List.mem_cons_self p rest))]
    rw [List.foldl_cons, h1]
    exact ih cur (fun q hq => hne q (List.mem_cons_of_mem p hq))

theorem mergeStepChecked_agree (dec : Decoder) (a b : Nat)
    (next prev : Message) (h : a / b ≤ next.Data.length) :
    mergeStepChecked dec a b next prev = some (mergeStep dec a b next prev) := by
  simp only [mergeStepChecked, mergeStep]
  split
  · have h0 : (0 : Int) ≤ (next.Data.length : Int) - ((a / b : Nat) : Int) := by
      omega
    rw [if_pos h0]
    have e : ((next.Data.length : Int) - ((a / b : Nat) : Int)).toNat =
        next.Data.length - a / b := by omega
    rw [e]
  · rfl

theorem mergeStepChecked_crash (dec : Decoder) (a b : Nat)
    (next prev : Message) (hf : next.Freq = prev.Freq)
    (h : next.Data.length < a / b) :
    mergeStepChecked dec a b next prev = none := by
  simp only [mergeStepChecked]
  rw [if_pos hf, if_neg (by omega)]

theorem mergeFoldChecked_no_match (dec : Decoder) (a b : Nat) :
    ∀ (l : List Message) (cur : Message),
      (∀ p ∈ l, cur.Freq ≠ p.Freq) →
      mergeFoldChecked dec a b l cur = some cur := by
  intro l
  induction l with
  | nil => intro cur _; rfl
  | cons p rest ih =>
    intro cur hne
    have h1 : mergeStepChecked dec a b cur p = some cur := by
      rw [mergeStepChecked, if_neg (hne p (List.mem_cons_self p rest))]
    simp only [mergeFoldChecked, h1]
    exact ih cur (fun q hq => hne q (List.mem_cons_of_mem p hq))

theorem mergeFoldChecked_append (dec : Decoder) (a b : Nat) :
    ∀ (l1 l2 : List Message) (cur : Message),
      mergeFoldChecked dec a b (l1 ++ l2) cur =
        (mergeFoldChecked dec a b l1 cur).bind
          (fun c => mergeFoldChecked dec a b l2 c) := by
  intro l1
  induction l1 with
  | nil => intro l2 cur; rfl
  | cons p rest ih =>
    intro l2 cur
    simp only [List.cons_append, mergeFoldChecked]
    cases mergeStepChecked dec a b cur p with
    | none => rfl
    | some c => exact ih l2 c

/-- C1: inside `Monitor.next`, a fresh wide-decoder message sharing its
frequency with a prior target merges into exactly one message: the narrow
decoder's `detect` re-run on the prior envelope extended by the fresh
envelope's tail past `drop = len(next.Data) − len(signal)/frame_shift`,
retaining the prior target's `Freq` and `Life`.  The guard
`siglen / shift ≤ len(next0.Data)` confines the statement to the regime
where the Go slice `next.Data[drop:]` is defined (a longer block makes the
int `drop` negative and the program crashes): under it the fallible model
`mergeFoldChecked` completes without a crash with exactly this message,
and the total fold used by `Monitor.next` computes the same message. -/
theorem monitor_next_merge (m : Monitor) (spec : List (List ℚ))
    (siglen : Nat) (next0 prev : Message)
    (hmem : prev ∈ m.targets)
    (hdist : m.targets.Pairwise (fun a b => a.Freq ≠ b.Freq))
    (_hfresh : next0 ∈ ({ m.Decoder with Band := m.MaxBand } : Decoder).Read spec)
    (hfreq : next0.Freq = prev.Freq)
    (hdrop : siglen / m.Decoder.STFT.FrameShift ≤ next0.Data.length) :
    mergeFoldChecked m.Decoder siglen m.Decoder.STFT.FrameShift m.targets
        next0 =
      some { m.Decoder.detect
          (prev.Data ++ next0.Data.drop
            (next0.Data.length - siglen / m.Decoder.STFT.FrameShift)) with
        Freq := prev.Freq, Life := prev.Life } ∧
    m.targets.foldl (mergeStep m.Decoder siglen m.Decoder.STFT.FrameShift)
        next0 =
      { m.Decoder.detect
          (prev.Data ++ next0.Data.drop
            (next0.Data.length - siglen / m.Decoder.STFT.FrameShift)) with
        Freq := prev.Freq, Life := prev.Life } := by
  obtain ⟨l1, l2, hsplit⟩ := List.append_of_mem hmem
  rw [hsplit] at hdist ⊢
  rw [List.pairwise_append] at hdist
  obtain ⟨hp1, hp2, h12⟩ := hdist
  rw [List.pairwise_cons] at hp2
  obtain ⟨hprev2, _⟩ := hp2
  have hl1 : ∀ p ∈ l1, next0.Freq ≠ p.Freq := by
    intro p hp
    rw [hfreq]
    exact (h12 p hp prev (List.mem_cons_self prev l2)).symm
  have e2 : mergeStep m.Decoder siglen m.Decoder.STFT.FrameShift next0 prev =
      { m.Decoder.detect
          (prev.Data ++ next0.Data.drop
            (next0.Data.length - siglen / m.Decoder.STFT.FrameShift)) with
        Freq := prev.Freq, Life := prev.Life } := by
    rw [mergeStep, if_pos hfreq]
  have hl2 : ∀ p ∈ l2,
      ({ m.Decoder.detect
          (prev.Data ++ next0.Data.drop
            (next0.Data.length - siglen / m.Decoder.STFT.FrameShift)) with
        Freq := prev.Freq, Life := prev.Life } : Message).Freq ≠ p.Freq := by
    intro p hp
    exact hprev2 p hp
  constructor
  · rw [mergeFoldChecked_append,
      mergeFoldChecked_no_match _ _ _ l1 next0 hl1, Option.some_bind]
    have e2c : mergeStepChecked m.Decoder siglen m.Decoder.STFT.FrameShift
        next0 prev =
        some { m.Decoder.detect
            (prev.Data ++ next0.Data.drop
              (next0.Data.length - siglen / m.Decoder.STFT.FrameShift)) with
          Freq := prev.Freq, Life := prev.Life } := by
      rw [mergeStepChecked_agree _ _ _ _ _ hdrop, e2]
    simp only [mergeFoldChecked, e2c]
    exact mergeFoldChecked_no_match _ _ _ l2 _ hl2
  · rw [List.foldl_append,
      mergeFold_no_match _ _ _ l1 next0 hl1, List.foldl_cons, e2]
    exact mergeFold_no_match _ _ _ l2 _ hl2

/-- Witness for `monitor_next_merge`: the side detection `M3` of the
spectrogram `specB` merges with the bin-3 target `T3` of `monB`; the
block is empty, so `drop = 9 ≥ 0` and the Go slice is defined. -/
theorem monitor_next_merge_witness :
    (T3 ∈ monB.targets ∧
      M3 ∈ ({ monB.Decoder with Band := monB.MaxBand } : Decoder).Read specB ∧
      0 / monB.Decoder.STFT.FrameShift ≤ M3.Data.length) ∧
    (mergeFoldChecked monB.Decoder 0 monB.Decoder.STFT.FrameShift
        monB.targets M3 =
      some { monB.Decoder.detect
          (T3.Data ++ M3.Data.drop
            (M3.Data.length - 0 / monB.Decoder.STFT.FrameShift)) with
        Freq := T3.Freq, Life := T3.Life } ∧
    monB.targets.foldl
        (mergeStep monB.Decoder 0 monB.Decoder.STFT.FrameShift) M3 =
      { monB.Decoder.detect
          (T3.Data ++ M3.Data.drop
            (M3.Data.length - 0 / monB.Decoder.STFT.FrameShift)) with
        Freq := T3.Freq, Life := T3.Life }) :=
  ⟨⟨by with_unfolding_all decide, by with_unfolding_all decide,
    by with_unfolding_all decide⟩,
   monitor_next_merge monB specB 0 M3 T3 (by with_unfolding_all decide)
     (by with_unfolding_all decide) (by with_unfolding_all decide)
     (by with_unfolding_all decide) (by with_unfolding_all decide)⟩

/- ============ Monitor.Read decomposition lemmas ============ -/

theorem read_result_eq (m : Monitor) (spec : List (List ℚ))
    (signal : List ℚ) :
    (m.Read spec signal).1 =
      m.next spec signal.length ++ m.carried (m.next spec signal.length) :=
  rfl

theorem next_mem (m : Monitor) (spec : List (List ℚ)) (siglen : Nat)
    {r : Message} :
    r ∈ m.next spec siglen ↔
      ∃ n0 ∈ ({ m.Decoder with Band := m.MaxBand } : Decoder).Read spec,
        r ∈ m.nextEmit siglen n0 := by
  simp only [Monitor.next]
  exact mem_foldl_append

theorem carried_mem (m : Monitor) (latest : List Message) {r : Message} :
    r ∈ m.carried latest ↔ ∃ t ∈ m.targets, r ∈ m.carryOne latest t := by
  simp only [Monitor.carried]
  exact mem_foldl_append

theorem decoder_read_mem (d : Decoder) (spec : List (List ℚ))
    {r : Message} :
    r ∈ d.Read spec ↔
      ∃ idx ∈ d.search (d.dist spec), ∃ n ∈ offsets d.Band,
        r ∈ d.emitAt spec idx n := by
  simp only [Decoder.Read]
  rw [mem_foldl_append]
  constructor
  · rintro ⟨idx, hidx, hin⟩
    exact ⟨idx, hidx, mem_foldl_append.mp hin⟩
  · rintro ⟨idx, hidx, hn⟩
    exact ⟨idx, hidx, mem_foldl_append.mpr hn⟩

/- ===================== C2: side flag invariant ===================== -/

/-- C2: when every stored target has `side = false` (true of every monitor
reachable from a fresh one), every message returned by `Monitor.Read` has
`side = false`: side detections serve merging only and are never emitted. -/
theorem monitor_read_side_false (m : Monitor) (spec : List (List ℚ))
    (signal : List ℚ)
    (h : ∀ t ∈ m.targets, t.side = false) :
    ∀ r ∈ (m.Read spec signal).1, r.side = false := by
  intro r hr
  rw [read_result_eq, List.mem_append] at hr
  rcases hr with hr | hr
  · obtain ⟨n0, _, hemit⟩ := (next_mem m spec signal.length).mp hr
    simp only [Monitor.nextEmit] at hemit
    split at hemit
    · rename_i hside
      rw [List.mem_singleton] at hemit
      rw [hemit]
      exact hside
    · exact absurd hemit (List.not_mem_nil r)
  · obtain ⟨t, ht, hc⟩ := (carried_mem m _).mp hr
    simp only [Monitor.carryOne] at hc
    split at hc
    · rw [List.mem_singleton] at hc
      rw [hc]
      exact h t ht
    · exact absurd hc (List.not_mem_nil r)

/-- Witness for `monitor_read_side_false` on the concrete monitor `monB`
and the spectrogram `specB`. -/
theorem monitor_read_side_false_witness :
    (∀ t ∈ monB.targets, t.side = false) ∧
    ∀ r ∈ (monB.Read specB []).1, r.side = false :=
  ⟨by with_unfolding_all decide,
   monitor_read_side_false monB specB [] (by with_unfolding_all decide)⟩

/- ===================== C3: miss counting ===================== -/

theorem detect_miss (d : Decoder) (signal : List ℚ) :
    (d.detect signal).Miss = 0 := rfl

theorem decoder_read_miss (d : Decoder) (spec : List (List ℚ)) :
    ∀ msg ∈ d.Read spec, msg.Miss = 0 := by
  intro msg hmsg
  obtain ⟨idx, _, n, _, hemit⟩ := (decoder_read_mem d spec).mp hmsg
  simp only [Decoder.emitAt] at hemit
  split at hemit
  · rw [List.mem_singleton] at hemit
    rw [hemit]
    rfl
  · exact absurd hemit (List.not_mem_nil msg)

theorem mergeFold_miss (dec : Decoder) (a b : Nat) :
    ∀ (l : List Message) (cur : Message), cur.Miss = 0 →
      (l.foldl (mergeStep dec a b) cur).Miss = 0 := by
  intro l
  induction l with
  | nil => intro cur h; exact h
  | cons p rest ih =>
    intro cur h
    rw [List.foldl_cons]
    apply ih
    rw [mergeStep]
    split
    · rfl
    · exact h

theorem next_miss_zero (m : Monitor) (spec : List (List ℚ)) (siglen : Nat) :
    ∀ r ∈ m.next spec siglen, r.Miss = 0 := by
  intro r hr
  obtain ⟨n0, hn0, hemit⟩ := (next_mem m spec siglen).mp hr
  simp only [Monitor.nextEmit] at hemit
  split at hemit
  · rw [List.mem_singleton] at hemit
    rw [hemit]
    exact mergeFold_miss _ _ _ _ _ (decoder_read_miss _ spec n0 hn0)
  · exact absurd hemit (List.not_mem_nil r)

/-- C3: in a `Monitor.Read` cycle where no fresh decode shares a stored
target's frequency, that target is carried with its miss counter
incremented by exactly one as long as the counter is below `MaxMiss`;
once the counter has reached `MaxMiss`, no returned message carries its
frequency any more (it is present for `MaxMiss` silent cycles after the
one that created it, so it vanishes on silent cycle `MaxMiss + 1`); and
no returned message ever carries a miss counter above `MaxMiss`. -/
theorem monitor_read_miss_cycle (m : Monitor) (spec : List (List ℚ))
    (signal : List ℚ) (prev : Message)
    (hmem : prev ∈ m.targets)
    (hnn : 0 ≤ m.MaxMiss)
    (_hinv : ∀ t ∈ m.targets, t.Miss ≤ m.MaxMiss)
    (hdist : m.targets.Pairwise (fun a b => a.Freq ≠ b.Freq))
    (hsilent : ∀ l ∈ m.next spec signal.length, l.Freq ≠ prev.Freq) :
    (prev.Miss < m.MaxMiss →
      { prev with Miss := prev.Miss + 1 } ∈ (m.Read spec signal).1) ∧
    (¬ prev.Miss < m.MaxMiss →
      ∀ r ∈ (m.Read spec signal).1, r.Freq ≠ prev.Freq) ∧
    (∀ r ∈ (m.Read spec signal).1, r.Miss ≤ m.MaxMiss) := by
  refine ⟨?_, ?_, ?_⟩
  · intro hlt
    rw [read_result_eq, List.mem_append]
    right
    rw [carried_mem]
    refine ⟨prev, hmem, ?_⟩
    rw [Monitor.carryOne, if_pos ⟨hsilent, hlt⟩]
    exact List.mem_singleton.mpr rfl
  · intro hge r hr
    rw [read_result_eq, List.mem_append] at hr
    rcases hr with hr | hr
    · exact hsilent r hr
    · obtain ⟨t, ht, hc⟩ := (carried_mem m _).mp hr
      simp only [Monitor.carryOne] at hc
      split at hc
      · rename_i hcond
        rw [List.mem_singleton] at hc
        rw [hc]
        show t.Freq ≠ prev.Freq
        by_cases hteq : t = prev
        · rw [hteq] at hcond
          exact absurd hcond.2 hge
        · exact hdist.forall (fun a b hab => hab.symm) ht hmem hteq
      · exact absurd hc (List.not_mem_nil r)
  · intro r hr
    rw [read_result_eq, List.mem_append] at hr
    rcases hr with hr | hr
    · rw [next_miss_zero m spec signal.length r hr]
      exact hnn
    · obtain ⟨t, ht, hc⟩ := (carried_mem m _).mp hr
      simp only [Monitor.carryOne] at hc
      split at hc
      · rename_i hcond
        rw [List.mem_singleton] at hc
        rw [hc]
        show t.Miss + 1 ≤ m.MaxMiss
        exact Int.add_one_le_iff.mpr hcond.2
      · exact absurd hc (List.not_mem_nil r)

/-- Witness for `monitor_read_miss_cycle`: the silent target of `monE`
(no spectrogram frames, so no fresh decodes) is carried with miss 1. -/
theorem monitor_read_miss_cycle_witness :
    (T7.Miss < monE.MaxMiss →
      { T7 with Miss := T7.Miss + 1 } ∈ (monE.Read [] []).1) ∧
    (¬ T7.Miss < monE.MaxMiss →
      ∀ r ∈ (monE.Read [] []).1, r.Freq ≠ T7.Freq) ∧
    (∀ r ∈ (monE.Read [] []).1, r.Miss ≤ monE.MaxMiss) :=
  monitor_read_miss_cycle monE [] [] T7
    (by with_unfolding_all decide) (by with_unfolding_all decide)
    (by with_unfolding_all decide) (by with_unfolding_all decide)
    (by with_unfolding_all decide)

/- ===================== C4: rolling buffer bound ===================== -/

/-- C4 counterexample: the rolling buffer can exceed `MaxHold` after a
`Read` completes.  `monD` holds at most one sample; two one-sample blocks
leave two samples in the buffer, because the trim drops
`len(signal)/frame_shift * frame_shift = 0` samples when the block is
shorter than the frame shift. -/
theorem monitor_buffer_overflow_cex :
    (((monD.Read [] [1]).2).Read [] [1]).2.samples.length > monD.MaxHold := by
  with_unfolding_all decide

/-- C4 amended: the trim always removes
`len(signal)/frame_shift * frame_shift` samples from the head — a whole
multiple of `frame_shift` — but this restores the `MaxHold` cap only when
the incoming block length is itself a multiple of `frame_shift`; under
that alignment (and a buffer within the cap beforehand) the buffer stays
within `MaxHold` after `Read`. -/
theorem monitor_buffer_trim (m : Monitor) (spec : List (List ℚ))
    (signal : List ℚ)
    (h1 : m.samples.length ≤ m.MaxHold)
    (h2 : m.Decoder.STFT.FrameShift ∣ signal.length) :
    ((m.Read spec signal).2.samples =
      if (m.samples ++ signal).length > m.MaxHold then
        (m.samples ++ signal).drop
          (signal.length / m.Decoder.STFT.FrameShift *
            m.Decoder.STFT.FrameShift)
      else m.samples ++ signal) ∧
    m.Decoder.STFT.FrameShift ∣
      signal.length / m.Decoder.STFT.FrameShift *
        m.Decoder.STFT.FrameShift ∧
    (m.Read spec signal).2.samples.length ≤ m.MaxHold := by
  refine ⟨rfl, dvd_mul_left _ _, ?_⟩
  have e : (m.Read spec signal).2.samples =
      if (m.samples ++ signal).length > m.MaxHold then
        (m.samples ++ signal).drop
          (signal.length / m.Decoder.STFT.FrameShift *
            m.Decoder.STFT.FrameShift)
      else m.samples ++ signal := rfl
  rw [e]
  split
  · rw [List.length_drop, Nat.div_mul_cancel h2, List.length_append,
      Nat.add_sub_cancel]
    exact h1
  · rename_i hle
    exact Nat.le_of_not_lt hle

/-- Witness for `monitor_buffer_trim`: a two-sample block, aligned to the
frame shift 2, on the initially empty buffer of `monD`. -/
theorem monitor_buffer_trim_witness :
    (monD.samples.length ≤ monD.MaxHold ∧
      monD.Decoder.STFT.FrameShift ∣ ([1, 1] : List ℚ).length) ∧
    ((monD.Read [] [1, 1]).2.samples =
      if (monD.samples ++ [1, 1]).length > monD.MaxHold then
        (monD.samples ++ [1, 1]).drop
          (([1, 1] : List ℚ).length / monD.Decoder.STFT.FrameShift *
            monD.Decoder.STFT.FrameShift)
      else monD.samples ++ [1, 1]) ∧
    monD.Decoder.STFT.FrameShift ∣
      ([1, 1] : List ℚ).length / monD.Decoder.STFT.FrameShift *
        monD.Decoder.STFT.FrameShift ∧
    (monD.Read [] [1, 1]).2.samples.length ≤ monD.MaxHold :=
  ⟨⟨by with_unfolding_all decide, by with_unfolding_all decide⟩,
   monitor_buffer_trim monD [] [1, 1] (by with_unfolding_all decide)
     (by with_unfolding_all decide)⟩

/- ===================== C10: frequency distinctness ===================== -/

/-- C10 counterexample: a reachable monitor whose target table holds two
messages with the same frequency.  From a fresh monitor, `specA` creates a
bin-3 target; on `specB` the search finds carriers on bins 1 and 4 whose
own envelopes fail the mute test, but their side detections (offsets +2
and −1) both land on bin 3, merge with the stored bin-3 target, lose their
side flag through the re-decode, and are both emitted and stored. -/
theorem monitor_targets_dup_freq_cex :
    Reaches monA monC ∧ monA.targets = [] ∧
      ¬ monC.targets.Pairwise (fun a b => a.Freq ≠ b.Freq) :=
  ⟨Reaches.step monA monB specB []
      (Reaches.step monA monA specA [] (Reaches.refl monA)),
   rfl, by with_unfolding_all decide⟩

/-- C10 amended: frequency distinctness is not an invariant of the target
table — two fresh messages merged with the same prior target can share its
frequency (see the counterexample).  What holds is that the carried-over
missed targets never duplicate a fresh message's frequency, they stay
pairwise distinct when the prior table was, and the returned set is
exactly the fresh messages followed by the carried ones. -/
theorem monitor_carried_distinct (m : Monitor) (latest : List Message)
    (hdist : m.targets.Pairwise (fun a b => a.Freq ≠ b.Freq)) :
    (∀ c ∈ m.carried latest, ∀ l ∈ latest, c.Freq ≠ l.Freq) ∧
    (m.carried latest).Pairwise (fun a b => a.Freq ≠ b.Freq) ∧
    m.prev latest = latest ++ m.carried latest := by
  refine ⟨?_, ?_, rfl⟩
  · intro c hc l hl
    obtain ⟨t, _, hct⟩ := (carried_mem m latest).mp hc
    simp only [Monitor.carryOne] at hct
    split at hct
    · rename_i hcond
      rw [List.mem_singleton] at hct
      rw [hct]
      exact (hcond.1 l hl).symm
    · exact absurd hct (List.not_mem_nil c)
  · have e : m.carried latest =
        (m.targets.map (fun t => m.carryOne latest t)).flatten := by
      simp only [Monitor.carried]
      exact foldl_append_eq _ _ []
    rw [e, List.pairwise_flatten]
    refine ⟨?_, ?_⟩
    · intro l hl
      rw [List.mem_map] at hl
      obtain ⟨t, _, ht⟩ := hl
      rw [← ht, Monitor.carryOne]
      split
      · exact List.pairwise_singleton _ _
      · exact List.Pairwise.nil
    · rw [List.pairwise_map]
      refine hdist.imp ?_
      intro a b hab x hx y hy
      simp only [Monitor.carryOne] at hx hy
      split at hx
      · rw [List.mem_singleton] at hx
        split at hy
        · rw [List.mem_singleton] at hy
          rw [hx, hy]
          exact hab
        · exact absurd hy (List.not_mem_nil y)
      · exact absurd hx (List.not_mem_nil x)

/-- Witness for `monitor_carried_distinct` on `monB` with no fresh
messages. -/
theorem monitor_carried_distinct_witness :
    monB.targets.Pairwise (fun a b => a.Freq ≠ b.Freq) ∧
    ((∀ c ∈ monB.carried [], ∀ l ∈ ([] : List Message), c.Freq ≠ l.Freq) ∧
     (monB.carried []).Pairwise (fun a b => a.Freq ≠ b.Freq) ∧
     monB.prev [] = [] ++ monB.carried []) :=
  ⟨by with_unfolding_all decide,
   monitor_carried_distinct monB [] (by with_unfolding_all decide)⟩
